import Mathlib

/-!
# p4sync: dispatch-and-classify engine

A shallow embedding of `src/p4sync.cpp` (and of the parts it shares with
`src/p4sync_batch.cpp`): the string helpers `begins_with_nocase` and `split`,
the shared backlog (`work`, `work_done`, `try_get_work`), the transport-failure
test `is_connection_error`, the command wrapper `p4cmd`, the body of the worker
lambda of `main` (`process`), the worker loop (`worker`) and the scan of the
preview listing (`parse_tosync`).

Modelling conventions.

* A `std::string` is a `List Char` (`Str`); `s.c_str()` is the part before the
  first NUL (`c_str`); a `char*` into a buffer is the list of the remaining
  characters, and `*p == 0` holds at the end of the list or at a NUL.
* `size_t` is `Nat` with explicit reduction modulo `2 ^ 64`; `string::npos` is
  `2 ^ 64 - 1`. `string::find` returns an `Option Nat`, `none` standing for
  `npos`; `split` turns it back into the number before doing arithmetic.
* `atomic<int>` is `Int` and `++` is `incr`, which wraps at `INT_MAX`.
* A C++ exception is a value of `Exn`; a function that may throw after having
  changed the globals returns the exception (if any) together with the state.
* The external collaborator (formatting the command line, `system`, the
  temporary file, `load_file`) is an `Env`: it maps a command to what
  `system`/`load_file` did. `print` only writes to the console and is left out.
* `State.invoked` is a ghost trace of the commands handed to `system`; it is
  not read by the program.
* The worker loop is modelled as run by one worker; the iteration order of the
  `unordered_map` `result_map` is a parameter (`table`).
-/

namespace P4Sync

/-- A `std::string`, as its sequence of characters. -/
abbrev Str := List Char

/-- The terminator of a C string. -/
def NUL : Char := Char.ofNat 0

/-- The `tolower` of the C locale: `A`..`Z` go to `a`..`z`, every other
character is kept. -/
def tolower (c : Char) : Char :=
  if 65 ≤ c.toNat ∧ c.toNat ≤ 90 then Char.ofNat (c.toNat + 32) else c

/-- The C string `s.c_str()` (what `*s` gives): the characters before the first NUL. -/
def c_str : Str → Str
  | [] => []
  | c :: s => if c = NUL then [] else c :: c_str s

/-- Source `begins_with_nocase(cstr s, cstr p)` on two C strings (the end of
the list is the terminator): walk both while the lowered characters agree,
then report whether `p` is exhausted. -/
def begins_with_nocase : Str → Str → Bool
  | _, [] => true
  | [], _ :: _ => false
  | c :: s, d :: p => if tolower c = tolower d then begins_with_nocase s p else false

/-- The number of `size_t` values, `2 ^ 64`. -/
def size_modulus : Nat := 18446744073709551616

/-- The largest `size_t`, which is `string::npos` (`2 ^ 64 - 1`). -/
def npos : Nat := 18446744073709551615

/-- Addition of two `size_t` values. -/
def size_add (a b : Nat) : Nat := (a + b) % size_modulus

/-- Search of `std::string::find` from offset `i`: the first offset at which
`p` starts, or `none` (for `npos`). -/
def find_from (p : Str) : Str → Nat → Option Nat
  | [], i => if p = [] then some i else none
  | c :: s, i => if p.isPrefixOf (c :: s) then some i else find_from p s (i + 1)

/-- Source `s.find(p)`. -/
def find (s p : Str) : Option Nat := find_from p s 0

/-- The exceptions the program throws. -/
inductive Exn
  | invalid_system_command
  | failed_to_load_file
  | tosync_parse_error
  | connection_error
  | out_of_range
  deriving DecidableEq, Repr

/-- Source `s.substr(pos, n)`: throws `std::out_of_range` when `pos > s.size()`,
and otherwise gives the `min(n, s.size() - pos)` characters from `pos` on. -/
def substr (s : Str) (pos n : Nat) : Except Exn Str :=
  if pos > s.length then .error .out_of_range
  else .ok ((s.drop pos).take (min n (s.length - pos)))

/-- Source `split(s, delim)`:
`mid = s.find(delim); return {s.substr(0, mid), s.substr(mid + delim.size())}`.
There is no test for `mid == npos`; the sum is a `size_t` sum. -/
def split (s delim : Str) : Except Exn (Str × Str) :=
  let mid := (find s delim).getD npos
  match substr s 0 mid with
  | .error e => .error e
  | .ok a =>
    match substr s (size_add mid delim.length) npos with
    | .error e => .error e
    | .ok b => .ok (a, b)

/-- The largest `int`. -/
def INT_MAX : Int := 2147483647

/-- The `++` of an `atomic<int>`: two's-complement wrap-around at `INT_MAX`. -/
def incr (x : Int) : Int := if x = INT_MAX then -2147483648 else x + 1

/-- A command line handed to `system`. -/
inductive Cmd
  | preview (dir : Str)
  | sync_head (path : Str)
  | sync_force (path : Str)
  deriving DecidableEq, Repr

/-- What `system` and `load_file` did for one command. -/
inductive SysResult
  | system_failed
  | load_failed
  | loaded (output : Str)
  deriving DecidableEq, Repr

/-- The external version-control tool. -/
abbrev Env := Cmd → SysResult

/-- The globals of `p4sync.cpp`, and the ghost trace `invoked`. -/
structure State where
  work : List Str
  work_index : Int
  needs_resolving : List Str
  critical : Bool
  errors : Int
  clobbered : Int
  updated : Int
  added : Int
  deleted : Int
  invoked : List Cmd
  deriving DecidableEq, Repr

/-- The globals at program start, with the backlog already filled. -/
def State.init (backlog : List Str) : State :=
  { work := backlog, work_index := 0, needs_resolving := [], critical := false,
    errors := 0, clobbered := 0, updated := 0, added := 0, deleted := 0, invoked := [] }

/-- Source `work_done()`. -/
def work_done (st : State) : Bool := st.work.isEmpty

/-- Source `try_get_work(task)`: the returned flag, the value of `task`
afterwards, and the globals afterwards. The vector is popped at its back. -/
def try_get_work (task : Str) (st : State) : Bool × Str × State :=
  match st.work.getLast? with
  | none => (false, task, st)
  | some t =>
    (true, t, { st with work_index := incr st.work_index, work := st.work.dropLast })

/-- Source `add_needs_resolving(file)`. -/
def add_needs_resolving (file : Str) (st : State) : State :=
  { st with needs_resolving := st.needs_resolving ++ [file] }

/-- The counter an entry of `result_map` points to. -/
inductive Counter
  | updated
  | added
  | deleted
  deriving DecidableEq, Repr

/-- One entry of `result_map`: key, label printed, colour, counter. -/
structure Entry where
  key : Str
  label : Str
  color : Nat
  var : Counter
  deriving DecidableEq, Repr

/-- Source `result_map`, in the order it is written (colours: the position in
the colour enumeration). -/
def result_map : List Entry :=
  [ { key := "updating".toList, label := "updated".toList, color := 10, var := .updated },
    { key := "added as".toList, label := "added".toList, color := 11, var := .added },
    { key := "deleted as".toList, label := "deleted".toList, color := 9, var := .deleted } ]

/-- Source `connection_errors` of `is_connection_error`. -/
def connection_errors : List Str :=
  [ "Connect to server failed; check $P4PORT.".toList,
    "Your session has expired, please login again.".toList,
    "Perforce password (P4PASSWD) invalid or unset.".toList,
    "RpcTransport: partial message read".toList,
    "TCP receive failed.".toList,
    "read: socket: WSAECONNRESET".toList ]

/-- The loop of `is_connection_error` over the remaining phrases. -/
def is_connection_error_loop (output : Str) : List Str → Bool
  | [] => false
  | e :: es => if (find output e).isSome then true else is_connection_error_loop output es

/-- Source `is_connection_error(output)`. -/
def is_connection_error (output : Str) : Bool :=
  is_connection_error_loop output connection_errors

/-- Source `p4cmd(...)`: run the command (recorded in the trace), load what it
wrote, and throw `connection_error` after setting `critical` when that text is
a transport failure. A failing `system` or `load_file` throws as well. -/
def p4cmd (env : Env) (cmd : Cmd) (st : State) : Except Exn Str × State :=
  let st1 := { st with invoked := st.invoked ++ [cmd] }
  match env cmd with
  | .system_failed => (.error .invalid_system_command, st1)
  | .load_failed => (.error .failed_to_load_file, st1)
  | .loaded output =>
    if is_connection_error output then (.error .connection_error, { st1 with critical := true })
    else (.ok output, st1)

/-- The literal searched by the clobber branch. -/
def clobber_marker : Str := "Can't clobber writable file".toList

/-- The literal searched by the resolve branch. -/
def resolve_marker : Str := "must resolve #head".toList

/-- The literal searched by the error branch. -/
def error_marker : Str := "error: ".toList

/-- The statement `(*var)++` for the counter of an entry. -/
def bump (v : Counter) (st : State) : State :=
  match v with
  | .updated => { st with updated := incr st.updated }
  | .added => { st with added := incr st.added }
  | .deleted => { st with deleted := incr st.deleted }

/-- The loop `for (const auto& i: result_map)` of the worker, over the entries
still to visit: the first entry whose key `right` begins with has its counter
incremented, and the loop is left. -/
def result_loop (right : Str) : List Entry → State → State
  | [], st => st
  | i :: rest, st =>
    if begins_with_nocase (c_str right) (c_str i.key) then bump i.var st
    else result_loop right rest st

/-- The body of the worker loop once `try_get_work(path)` has succeeded
(source lines 226-281): the exception that escapes it, if any, and the globals.
`table` is `result_map` in the order the `unordered_map` iterates. The calls of
`print` are left out; the `output.substr(ierror)` printed by the error branch
cannot throw, `ierror` being an offset inside `output`. -/
def process (env : Env) (table : List Entry) (path : Str) (st : State) : Option Exn × State :=
  match p4cmd env (.sync_head path) st with
  | (.error e, st1) => (some e, st1)
  | (.ok output, st1) =>
    match split output "\n".toList with
    | .error e => (some e, st1)
    | .ok (first_line, _) =>
      if (find output clobber_marker).isSome then
        let st2 := { st1 with clobbered := incr st1.clobbered }
        match p4cmd env (.sync_force path) st2 with
        | (.error e, st3) => (some e, st3)
        | (.ok _, st3) => (none, st3)
      else if (find output resolve_marker).isSome then
        (none, add_needs_resolving path st1)
      else if (find output error_marker).isSome then
        (none, { st1 with errors := incr st1.errors })
      else
        match split first_line " - ".toList with
        | .error e => (some e, st1)
        | .ok (_, right) => (none, result_loop right table st1)

/-- The worker lambda of `main` (source lines 222-284), run by one worker:
`none` when the fuel runs out, else the exception that escaped the lambda (if
any) and the globals. The lambda has no handler, so an exception ends it. -/
def worker (env : Env) (table : List Entry) : Nat → State → Option (Option Exn × State)
  | 0, _ => none
  | fuel + 1, st =>
    if !work_done st && !st.critical then
      match try_get_work [] st with
      | (true, path, st1) =>
        match process env table path st1 with
        | (some e, st2) => some (some e, st2)
        | (none, st2) => worker env table fuel st2
      | (false, _, st1) => worker env table fuel st1
    else some (none, st)

/-- The inner loop `while (*p && *p != '#') p++` of the listing scan: the
characters passed over and the rest of the buffer. -/
def scan_to_hash : Str → Str × Str
  | [] => ([], [])
  | c :: s =>
    if c = NUL ∨ c = '#' then ([], c :: s)
    else ((c :: (scan_to_hash s).1), (scan_to_hash s).2)

/-- The buffer after `p += strcspn(p, "\r\n")`. -/
def skip_strcspn : Str → Str
  | [] => []
  | c :: s => if c = NUL ∨ c = '\r' ∨ c = '\n' then c :: s else skip_strcspn s

/-- The buffer after `p += strspn(p, "\r\n\t ")`. -/
def skip_strspn : Str → Str
  | [] => []
  | c :: s => if c = '\r' ∨ c = '\n' ∨ c = '\t' ∨ c = ' ' then skip_strspn s else c :: s

/-- The scan of the preview listing (source lines 200-211), from the buffer
position `p` with the backlog `work`: `none` when the fuel runs out, else the
exception thrown (if any) and the backlog. -/
def parse_tosync : Nat → Str → List Str → Option (Option Exn × List Str)
  | 0, _, _ => none
  | fuel + 1, p, work =>
    match p with
    | [] => some (none, work)
    | c :: _ =>
      if c = NUL then some (none, work)
      else
        match (scan_to_hash p).2 with
        | [] => some (some .tosync_parse_error, work)
        | d :: q =>
          if d = NUL then some (some .tosync_parse_error, work)
          else parse_tosync fuel (skip_strspn (skip_strcspn q)) (work ++ [(scan_to_hash p).1])

/-! ## Vocabulary of the claims -/

/-- The claims' "`r` begins with `key`, compared case-insensitively": the
first characters of `r`, as many as the key has, are the key once both are
lowered. -/
def begins_nocase (r key : Str) : Prop :=
  (r.take key.length).map tolower = key.map tolower

instance (r key : Str) : Decidable (begins_nocase r key) := by
  unfold begins_nocase
  infer_instance

/-- The total the claims call "the counters account for": the five counters
and the number of entries of the needs-resolve list. -/
def accounted (st : State) : Int :=
  st.updated + st.added + st.deleted + st.errors + st.clobbered + st.needs_resolving.length

/-- No counter is negative. -/
def counters_nonneg (st : State) : Prop :=
  0 ≤ st.updated ∧ 0 ≤ st.added ∧ 0 ≤ st.deleted ∧ 0 ≤ st.errors ∧ 0 ≤ st.clobbered

/-- The first line of an output: its characters before the first newline. -/
def first_line_of (output : Str) : Str :=
  output.takeWhile (fun c => decide (c ≠ '\n'))

/-- What follows the first occurrence of `delim` in `s`, when `delim` occurs. -/
def after_first (delim : Str) : Str → Option Str
  | [] => if delim = [] then some [] else none
  | c :: s =>
    if delim.isPrefixOf (c :: s) then some ((c :: s).drop delim.length)
    else after_first delim s

/-- The three success verbs. -/
def success_verbs : List Str :=
  ["updating".toList, "added as".toList, "deleted as".toList]

/-- The output has no marker: no transport-failure phrase and none of the
clobber, resolve and error markers. -/
def marker_free (output : Str) : Prop :=
  (∀ e ∈ connection_errors, ¬ e <:+: output) ∧ ¬ clobber_marker <:+: output ∧
  ¬ resolve_marker <:+: output ∧ ¬ error_marker <:+: output

instance (output : Str) : Decidable (marker_free output) := by
  unfold marker_free
  infer_instance

/-- An unclassified success, in the words of the amended claim: the output has
no marker, and what follows the first " - " of its first line (if there is
one) begins, compared case-insensitively, with none of the three success
verbs. -/
def unclassified_success (output : Str) : Bool :=
  decide (marker_free output) &&
    match after_first " - ".toList (first_line_of output) with
    | none => true
    | some seg => decide (∀ v ∈ success_verbs, ¬ begins_nocase seg v)

/-- The normal-mode output of a target, when the tool produced one. -/
def output_of (env : Env) (path : Str) : Option Str :=
  match env (.sync_head path) with
  | .loaded output => some output
  | _ => none

/-- The target's normal-mode output is an unclassified success. -/
def unclassified_target (env : Env) (path : Str) : Bool :=
  match output_of env path with
  | some output => unclassified_success output
  | none => false

/-- The outputs on which the worker body works as designed: fewer than
`2 ^ 64` characters, and a " - " in the first line when there is no marker. -/
def delimited (output : Str) : Prop :=
  output.length < size_modulus ∧
  (marker_free output → " - ".toList <:+: first_line_of output)

instance (output : Str) : Decidable (delimited output) := by
  unfold delimited
  infer_instance

/-- A tool for the examples: it reports an update for `//d/u`, an error for
`//d/e`, and for every other target a line that has no verb of `result_map`. -/
def sample_env : Env := fun cmd =>
  if cmd = .sync_head "//d/u".toList then .loaded "info: //d/u#2 - updating c:\\ws\\u".toList
  else if cmd = .sync_head "//d/e".toList then .loaded "error: //d/e - no such file(s).".toList
  else .loaded "info: //d/x#1 - is opened and not being changed".toList

/-- A client of `try_get_work`: `n` successive calls, each on a fresh empty
`task`; the flags and tasks returned, in call order, and the globals afterwards. -/
def take_work : Nat → State → List (Bool × Str) × State
  | 0, st => ([], st)
  | n + 1, st =>
    (((try_get_work [] st).1, (try_get_work [] st).2.1) ::
        (take_work n (try_get_work [] st).2.2).1,
      (take_work n (try_get_work [] st).2.2).2)

/-- One line of a preview listing: the target, what follows the `#`, and
whether the line ends in `\r\n` rather than `\n`. -/
structure ListingLine where
  target : Str
  revision : Str
  crlf : Bool
  deriving DecidableEq, Repr

/-- The text of one listing line. -/
def ListingLine.text (l : ListingLine) : Str :=
  l.target ++ '#' :: (l.revision ++ (if l.crlf then ['\r', '\n'] else ['\n']))

/-- The listing made of the given lines. -/
def listing : List ListingLine → Str
  | [] => []
  | l :: ls => l.text ++ listing ls

/-- The shape the claim asks of a listing line: the target is non-empty, has
no `#`, NUL, `\r` or `\n` and does not start with a space or tab; what
follows the `#` has no `\r`, `\n` or NUL. -/
def ListingLine.well_formed (l : ListingLine) : Prop :=
  l.target ≠ [] ∧
  (∀ c ∈ l.target, c ≠ '#' ∧ c ≠ NUL ∧ c ≠ '\r' ∧ c ≠ '\n') ∧
  l.target.head? ≠ some ' ' ∧ l.target.head? ≠ some '\t' ∧
  (∀ c ∈ l.revision, c ≠ '\r' ∧ c ≠ '\n' ∧ c ≠ NUL)

instance (l : ListingLine) : Decidable l.well_formed := by
  unfold ListingLine.well_formed
  infer_instance

/-- The buffer is at its end or at a character that `strspn` does not skip. -/
def starts_clean (p : Str) : Prop :=
  ∀ c ∈ p.head?, c ≠ '\r' ∧ c ≠ '\n' ∧ c ≠ '\t' ∧ c ≠ ' '

/-! ## Facts about `find` -/

theorem find_from_cons (p : Str) (c : Char) (s : Str) (i : Nat) :
    find_from p (c :: s) i =
      if p.isPrefixOf (c :: s) = true then some i else find_from p s (i + 1) := rfl

theorem find_from_isSome_iff (p s : Str) (i : Nat) :
    (find_from p s i).isSome = true ↔ p <:+: s := by
  induction s generalizing i with
  | nil =>
    by_cases hp : p = [] <;> simp [find_from, hp]
  | cons c s ih =>
    unfold find_from
    by_cases h : p.isPrefixOf (c :: s) = true
    · simp only [h, if_true, Option.isSome_some, true_iff]
      exact (List.isPrefixOf_iff_prefix.mp h).isInfix
    · simp only [h, if_false, Bool.false_eq_true]
      rw [ih, List.infix_cons_iff]
      constructor
      · exact fun hs => Or.inr hs
      · rintro (hp | hs)
        · exact absurd (List.isPrefixOf_iff_prefix.mpr hp) h
        · exact hs

theorem find_isSome_iff (s p : Str) : (find s p).isSome = true ↔ p <:+: s :=
  find_from_isSome_iff p s 0

theorem find_isSome_eq_false_iff (s p : Str) : (find s p).isSome = false ↔ ¬ p <:+: s := by
  rw [← find_isSome_iff]; simp

theorem find_from_bound (p s : Str) (i j : Nat) (h : find_from p s i = some j) :
    i ≤ j ∧ (j - i) + p.length ≤ s.length := by
  induction s generalizing i with
  | nil =>
    unfold find_from at h
    by_cases hp : p = []
    · simp [hp] at h; subst h; simp [hp]
    · simp [hp] at h
  | cons c s ih =>
    unfold find_from at h
    by_cases hpre : p.isPrefixOf (c :: s) = true
    · simp only [hpre, if_true, Option.some.injEq] at h
      subst h
      have := (List.isPrefixOf_iff_prefix.mp hpre).length_le
      simpa using this
    · simp only [hpre, if_false, Bool.false_eq_true] at h
      have := ih (i + 1) h
      simp only [List.length_cons]
      omega

theorem find_bound (s p : Str) (j : Nat) (h : find s p = some j) :
    j + p.length ≤ s.length := by
  have := find_from_bound p s 0 j h
  simpa using this.2

/-- When the first occurrence of `p` in `a ++ p ++ b` is the one after `a`,
`find` returns the length of `a`. -/
theorem find_from_first (p a b : Str) (i : Nat) (hp : p ≠ [])
    (h : ¬ p <:+: a ++ p.dropLast) :
    find_from p (a ++ p ++ b) i = some (i + a.length) := by
  induction a generalizing i with
  | nil =>
    obtain ⟨x, q, rfl⟩ := List.exists_cons_of_ne_nil hp
    have : List.isPrefixOf (x :: q) (x :: (q ++ b)) = true :=
      List.isPrefixOf_iff_prefix.mpr ⟨b, by simp⟩
    rw [List.nil_append, List.cons_append, find_from_cons, if_pos this]
    rfl
  | cons x a ih =>
    have hno : ¬ p.isPrefixOf (x :: (a ++ p ++ b)) = true := by
      intro hpre
      apply h
      have h1 : p <+: (x :: a) ++ p ++ b := by
        simpa using List.isPrefixOf_iff_prefix.mp hpre
      have h2 : (x :: a) ++ p.dropLast <+: (x :: a) ++ p ++ b := by
        refine ⟨[p.getLast hp] ++ b, ?_⟩
        conv_rhs => rw [← List.dropLast_append_getLast hp]
        simp
      have h3 : p.length ≤ ((x :: a) ++ p.dropLast).length := by
        have := List.length_pos_of_ne_nil hp
        simp only [List.length_append, List.length_cons, List.length_dropLast]
        omega
      exact (List.prefix_of_prefix_length_le h1 h2 h3).isInfix
    have hrec : ¬ p <:+: a ++ p.dropLast := by
      intro hin
      apply h
      rw [List.cons_append, List.infix_cons_iff]
      exact Or.inr hin
    rw [List.cons_append, List.cons_append, find_from_cons, if_neg hno, ih (i + 1) hrec]
    simp only [List.length_cons]
    congr 1
    omega

theorem find_first (p a b : Str) (hp : p ≠ []) (h : ¬ p <:+: a ++ p.dropLast) :
    find (a ++ p ++ b) p = some a.length := by
  have := find_from_first p a b 0 hp h
  simpa [find] using this

/-! ## Facts about `substr` and `split` -/

theorem singleton_infix_iff (c : Char) (l : Str) : [c] <:+: l ↔ c ∈ l := by
  constructor
  · rintro ⟨s, t, rfl⟩
    simp
  · intro h
    obtain ⟨s, t, rfl⟩ := List.append_of_mem h
    exact ⟨s, t, by simp⟩

theorem substr_ok (s : Str) (pos n : Nat) (h : pos ≤ s.length) :
    substr s pos n = .ok ((s.drop pos).take n) := by
  have ht : List.take (min n (s.length - pos)) (List.drop pos s) = List.take n (List.drop pos s) := by
    rw [List.take_eq_take]
    simp
  simp [substr, Nat.not_lt.mpr h, ht]

theorem substr_zero (s : Str) (n : Nat) : substr s 0 n = .ok (s.take n) := by
  simpa using substr_ok s 0 n (Nat.zero_le _)

theorem size_add_npos_one : size_add npos 1 = 0 := by
  simp [size_add, npos, size_modulus]

/-- Splitting on the newline never throws: without a newline `npos + 1`
wraps to `0`. -/
theorem split_newline_ok (s : Str) : ∃ r, split s ['\n'] = .ok r := by
  unfold split
  cases hf : find s ['\n'] with
  | none =>
    have h0 : size_add npos (['\n'] : Str).length = 0 := size_add_npos_one
    simp only [Option.getD_none, h0, substr_zero]
    exact ⟨_, rfl⟩
  | some j =>
    have hb := find_bound s ['\n'] j hf
    have hle : size_add j (['\n'] : Str).length ≤ s.length := by
      unfold size_add
      exact le_trans (Nat.mod_le _ _) hb
    simp only [Option.getD_some, substr_zero, substr_ok s _ npos hle]
    exact ⟨_, rfl⟩

/-- When the first occurrence of the delimiter is the one after `a`, `split`
returns what stands before and after it. -/
theorem split_first (a delim b : Str) (hd : delim ≠ [])
    (hfirst : ¬ delim <:+: a ++ delim.dropLast)
    (hlen : (a ++ delim ++ b).length < size_modulus) :
    split (a ++ delim ++ b) delim = .ok (a, b) := by
  have hlen2 : a.length + delim.length + b.length < 18446744073709551616 := by
    rw [List.length_append, List.length_append] at hlen
    exact hlen
  unfold split
  rw [find_first delim a b hd hfirst]
  simp only [Option.getD_some, substr_zero]
  have hsz : size_add a.length delim.length = a.length + delim.length := by
    unfold size_add size_modulus
    exact Nat.mod_eq_of_lt (by omega)
  have hpos : a.length + delim.length ≤ (a ++ delim ++ b).length := by
    simp [List.length_append]
  rw [hsz, substr_ok _ _ _ hpos]
  have h1 : List.take a.length (a ++ delim ++ b) = a := by
    rw [List.append_assoc, List.take_left]
  have h2 : List.drop (a.length + delim.length) (a ++ delim ++ b) = b := by
    have : a.length + delim.length = (a ++ delim).length := by simp
    rw [this, List.drop_left]
  have h3 : List.take npos b = b := by
    apply List.take_of_length_le
    unfold npos
    omega
  rw [h1, h2, h3]

/-- Without the delimiter `split` returns the whole string as its first part,
unless the second `substr` throws. -/
theorem split_absent_fst (s delim : Str) (r : Str × Str) (hno : ¬ delim <:+: s)
    (hlen : s.length < size_modulus) (h : split s delim = .ok r) : r.1 = s := by
  have hf : find s delim = none := by
    have := (find_isSome_eq_false_iff s delim).mpr hno
    simpa using this
  unfold split at h
  rw [hf] at h
  simp only [Option.getD_none, substr_zero] at h
  have h3 : List.take npos s = s := by
    apply List.take_of_length_le
    unfold npos
    unfold size_modulus at hlen
    omega
  rw [h3] at h
  cases h2 : substr s (size_add npos delim.length) npos with
  | error e => rw [h2] at h; cases h
  | ok b => rw [h2] at h; cases h; rfl

/-- The first part of `split(output, "\n")` is the first line. -/
theorem split_newline_first_line (output line : Str) (hnl : '\n' ∉ line)
    (hout : output = line ∨ ∃ rest, output = line ++ '\n' :: rest)
    (hlen : output.length < size_modulus) :
    ∃ rest, split output ['\n'] = .ok (line, rest) := by
  rcases hout with h | ⟨rest, h⟩
  · subst h
    obtain ⟨r, hr⟩ := split_newline_ok output
    have hno : ¬ ['\n'] <:+: output := by
      rw [singleton_infix_iff]; exact hnl
    have := split_absent_fst output ['\n'] r hno hlen hr
    refine ⟨r.2, ?_⟩
    rw [hr, ← this]
  · subst h
    refine ⟨rest, ?_⟩
    have hfirst : ¬ ['\n'] <:+: line ++ ['\n'].dropLast := by
      simp only [List.dropLast_single, List.append_nil, singleton_infix_iff]
      exact hnl
    have := split_first line ['\n'] rest (by simp) hfirst (by simpa using hlen)
    simpa using this

/-! ## Facts about `begins_with_nocase` -/

theorem tolower_NUL : tolower NUL = NUL := by decide

theorem tolower_eq_NUL (d : Char) (h : tolower d = NUL) : d = NUL := by
  unfold tolower at h
  by_cases hr : 65 ≤ d.toNat ∧ d.toNat ≤ 90
  · rw [if_pos hr] at h
    exfalso
    obtain ⟨h1, h2⟩ := hr
    generalize d.toNat = n at h h1 h2
    interval_cases n <;> exact absurd h (by decide)
  · rw [if_neg hr] at h
    exact h

theorem c_str_of_not_mem (k : Str) (h : NUL ∉ k) : c_str k = k := by
  induction k with
  | nil => rfl
  | cons d k ih =>
    simp only [List.mem_cons, not_or] at h
    simp only [c_str, if_neg (Ne.symm h.1), ih h.2]

theorem begins_with_nocase_nil (s : Str) : begins_with_nocase s [] = true := by
  cases s <;> rfl

/-- On a key without NUL, the source test on the C string of `r` is the
comparison of the lowered first characters of `r` with the lowered key. -/
theorem begins_with_nocase_c_str (r k : Str) (hk : NUL ∉ k) :
    begins_with_nocase (c_str r) k = true ↔
      (r.take k.length).map tolower = k.map tolower := by
  induction k generalizing r with
  | nil => simp [begins_with_nocase_nil]
  | cons d k ih =>
    simp only [List.mem_cons, not_or] at hk
    cases r with
    | nil => simp [c_str, begins_with_nocase]
    | cons c r =>
      by_cases hc : c = NUL
      · subst hc
        simp only [c_str, if_true, begins_with_nocase, List.length_cons, List.take_succ_cons,
          List.map_cons, List.cons.injEq, Bool.false_eq_true, false_iff, not_and]
        intro h
        rw [tolower_NUL] at h
        exact absurd (tolower_eq_NUL d h.symm).symm hk.1
      · simp only [c_str, if_neg hc, begins_with_nocase, List.length_cons, List.take_succ_cons,
          List.map_cons, List.cons.injEq]
        by_cases ht : tolower c = tolower d
        · simp only [ht, if_true, true_and]
          exact ih r hk.2
        · simp [ht]

/-! ## Facts about `is_connection_error` and `p4cmd` -/

theorem is_connection_error_loop_iff (output : Str) (es : List Str) :
    is_connection_error_loop output es = true ↔ ∃ e ∈ es, e <:+: output := by
  induction es with
  | nil => simp [is_connection_error_loop]
  | cons e es ih =>
    unfold is_connection_error_loop
    by_cases h : (find output e).isSome = true
    · simp only [h, if_true, List.mem_cons, true_iff]
      exact ⟨e, Or.inl rfl, (find_isSome_iff output e).mp h⟩
    · have hno : ¬ e <:+: output := fun hin => h ((find_isSome_iff output e).mpr hin)
      simp only [h, if_false, Bool.false_eq_true, ih, List.mem_cons]
      constructor
      · rintro ⟨x, hx, hin⟩
        exact ⟨x, Or.inr hx, hin⟩
      · rintro ⟨x, hx | hx, hin⟩
        · subst hx; exact absurd hin hno
        · exact ⟨x, hx, hin⟩

theorem is_connection_error_iff (output : Str) :
    is_connection_error output = true ↔ ∃ e ∈ connection_errors, e <:+: output :=
  is_connection_error_loop_iff output connection_errors

theorem is_connection_error_eq_false (output : Str)
    (h : ∀ e ∈ connection_errors, ¬ e <:+: output) : is_connection_error output = false := by
  cases hc : is_connection_error output with
  | false => rfl
  | true =>
    obtain ⟨e, he, hin⟩ := (is_connection_error_iff output).mp hc
    exact absurd hin (h e he)

theorem p4cmd_loaded_ok (env : Env) (cmd : Cmd) (st : State) (output : Str)
    (h : env cmd = .loaded output) (hn : is_connection_error output = false) :
    p4cmd env cmd st = (.ok output, { st with invoked := st.invoked ++ [cmd] }) := by
  simp [p4cmd, h, hn]

theorem p4cmd_loaded_fatal (env : Env) (cmd : Cmd) (st : State) (output : Str)
    (h : env cmd = .loaded output) (hf : is_connection_error output = true) :
    p4cmd env cmd st =
      (.error .connection_error,
        { st with invoked := st.invoked ++ [cmd], critical := true }) := by
  simp [p4cmd, h, hf]

/-- Whatever the tool answers, `p4cmd` changes only the trace and `critical`. -/
theorem p4cmd_frame (env : Env) (cmd : Cmd) (st : State) :
    (p4cmd env cmd st).2 =
      { st with invoked := st.invoked ++ [cmd], critical := (p4cmd env cmd st).2.critical } := by
  unfold p4cmd
  cases env cmd with
  | system_failed => rfl
  | load_failed => rfl
  | loaded output =>
    by_cases hc : is_connection_error output = true
    · simp [hc]
    · simp [hc]

/-- When `p4cmd` returns, `critical` is as before. -/
theorem p4cmd_ok_critical (env : Env) (cmd : Cmd) (st : State) (output : Str)
    (h : (p4cmd env cmd st).1 = .ok output) : (p4cmd env cmd st).2.critical = st.critical := by
  unfold p4cmd at h ⊢
  generalize env cmd = res at h ⊢
  cases res with
  | system_failed => simp at h
  | load_failed => simp at h
  | loaded o =>
    by_cases hc : is_connection_error o = true
    · simp [hc] at h
    · simp [hc]

/-! ## The branches of the worker body -/

theorem newline_toList : "\n".toList = ['\n'] := rfl

theorem process_fatal (env : Env) (table : List Entry) (path : Str) (st : State)
    (output : Str) (h : env (.sync_head path) = .loaded output)
    (hf : is_connection_error output = true) :
    process env table path st =
      (some .connection_error,
        { st with invoked := st.invoked ++ [.sync_head path], critical := true }) := by
  simp [process, p4cmd_loaded_fatal env _ st output h hf]

theorem process_clobber (env : Env) (table : List Entry) (path : Str) (st : State)
    (output : Str) (h : env (.sync_head path) = .loaded output)
    (hn : is_connection_error output = false)
    (hc : (find output clobber_marker).isSome = true) :
    (process env table path st).2 =
      { st with clobbered := incr st.clobbered,
                invoked := st.invoked ++ [.sync_head path, .sync_force path],
                critical := (process env table path st).2.critical } := by
  obtain ⟨⟨fl, rest⟩, hs⟩ := split_newline_ok output
  unfold process
  rw [p4cmd_loaded_ok env _ st output h hn]
  simp only [newline_toList, hs, hc, if_true]
  split
  · next e st3 heq =>
    have hfr := congrArg Prod.snd heq
    rw [p4cmd_frame] at hfr
    simp only at hfr ⊢
    rw [← hfr]
    simp
  · next o st3 heq =>
    have hfr := congrArg Prod.snd heq
    rw [p4cmd_frame] at hfr
    simp only at hfr ⊢
    rw [← hfr]
    simp

theorem process_resolve (env : Env) (table : List Entry) (path : Str) (st : State)
    (output : Str) (h : env (.sync_head path) = .loaded output)
    (hn : is_connection_error output = false)
    (hc : (find output clobber_marker).isSome = false)
    (hr : (find output resolve_marker).isSome = true) :
    process env table path st =
      (none, { st with invoked := st.invoked ++ [.sync_head path],
                       needs_resolving := st.needs_resolving ++ [path] }) := by
  obtain ⟨⟨fl, rest⟩, hs⟩ := split_newline_ok output
  unfold process
  rw [p4cmd_loaded_ok env _ st output h hn]
  simp [newline_toList, hs, hc, hr, add_needs_resolving]

theorem process_error (env : Env) (table : List Entry) (path : Str) (st : State)
    (output : Str) (h : env (.sync_head path) = .loaded output)
    (hn : is_connection_error output = false)
    (hc : (find output clobber_marker).isSome = false)
    (hr : (find output resolve_marker).isSome = false)
    (he : (find output error_marker).isSome = true) :
    process env table path st =
      (none, { st with invoked := st.invoked ++ [.sync_head path],
                       errors := incr st.errors }) := by
  obtain ⟨⟨fl, rest⟩, hs⟩ := split_newline_ok output
  unfold process
  rw [p4cmd_loaded_ok env _ st output h hn]
  simp [newline_toList, hs, hc, hr, he]

theorem process_success (env : Env) (table : List Entry) (path : Str) (st : State)
    (output first_line rest : Str) (h : env (.sync_head path) = .loaded output)
    (hn : is_connection_error output = false)
    (hc : (find output clobber_marker).isSome = false)
    (hr : (find output resolve_marker).isSome = false)
    (he : (find output error_marker).isSome = false)
    (hs : split output ['\n'] = .ok (first_line, rest)) :
    process env table path st =
      match split first_line " - ".toList with
      | .error e => (some e, { st with invoked := st.invoked ++ [.sync_head path] })
      | .ok (_, right) =>
        (none, result_loop right table { st with invoked := st.invoked ++ [.sync_head path] }) := by
  unfold process
  rw [p4cmd_loaded_ok env _ st output h hn]
  simp [newline_toList, hs, hc, hr, he]

/-! ## The loop over `result_map` -/

theorem begins_with_nocase_head (s k : Str) (hk : k ≠ [])
    (h : begins_with_nocase s k = true) :
    s.head?.map tolower = k.head?.map tolower := by
  obtain ⟨d, p, rfl⟩ := List.exists_cons_of_ne_nil hk
  cases s with
  | nil => simp [begins_with_nocase] at h
  | cons c s =>
    by_cases ht : tolower c = tolower d
    · simp [ht]
    · simp [begins_with_nocase, ht] at h

theorem result_map_keys : ∀ e ∈ result_map, NUL ∉ e.key ∧ e.key ≠ [] := by decide

theorem result_map_first_letters :
    ∀ e1 ∈ result_map, ∀ e2 ∈ result_map,
      e1.key.head?.map tolower = e2.key.head?.map tolower → e1 = e2 := by decide

/-- At most one key of `result_map` matches a given text. -/
theorem result_map_match_unique (right : Str) (e1 e2 : Entry)
    (h1 : e1 ∈ result_map) (h2 : e2 ∈ result_map)
    (m1 : begins_with_nocase (c_str right) (c_str e1.key) = true)
    (m2 : begins_with_nocase (c_str right) (c_str e2.key) = true) : e1 = e2 := by
  have k1 := result_map_keys e1 h1
  have k2 := result_map_keys e2 h2
  rw [c_str_of_not_mem _ k1.1] at m1
  rw [c_str_of_not_mem _ k2.1] at m2
  apply result_map_first_letters e1 h1 e2 h2
  rw [← begins_with_nocase_head _ _ k1.2 m1, ← begins_with_nocase_head _ _ k2.2 m2]

theorem result_loop_none (right : Str) (table : List Entry) (st : State)
    (h : ∀ e ∈ table, begins_with_nocase (c_str right) (c_str e.key) = false) :
    result_loop right table st = st := by
  induction table with
  | nil => rfl
  | cons i rest ih =>
    have hi := h i (List.mem_cons_self _ _)
    simp only [result_loop, hi, Bool.false_eq_true, if_false]
    exact ih (fun e he => h e (List.mem_cons_of_mem _ he))

theorem result_loop_match (right : Str) (table : List Entry) (st : State) (e : Entry)
    (he : e ∈ table) (hm : begins_with_nocase (c_str right) (c_str e.key) = true)
    (hu : ∀ x ∈ table, begins_with_nocase (c_str right) (c_str x.key) = true → x = e) :
    result_loop right table st = bump e.var st := by
  induction table with
  | nil => cases he
  | cons i rest ih =>
    by_cases hi : begins_with_nocase (c_str right) (c_str i.key) = true
    · have := hu i (List.mem_cons_self _ _) hi
      subst this
      simp only [result_loop, hi, if_true]
    · simp only [result_loop, hi, if_false, Bool.false_eq_true]
      rcases List.mem_cons.mp he with rfl | hrest
      · exact absurd hm hi
      · exact ih hrest (fun x hx => hu x (List.mem_cons_of_mem _ hx))

/-- In whatever order the table is visited, a text that begins with the key
of an entry of `result_map` increments the counter of that entry. -/
theorem result_loop_perm_match (right : Str) (table : List Entry) (st : State) (e : Entry)
    (hperm : table.Perm result_map) (he : e ∈ result_map)
    (hm : begins_nocase right e.key) :
    result_loop right table st = bump e.var st := by
  have hk := result_map_keys e he
  have hm2 : begins_with_nocase (c_str right) (c_str e.key) = true := by
    rw [c_str_of_not_mem _ hk.1]
    exact (begins_with_nocase_c_str right e.key hk.1).mpr hm
  apply result_loop_match right table st e (hperm.mem_iff.mpr he) hm2
  intro x hx hxm
  exact result_map_match_unique right x e (hperm.mem_iff.mp hx) he hxm hm2

/-- In whatever order the table is visited, a text that begins with no key of
`result_map` changes nothing. -/
theorem result_loop_perm_none (right : Str) (table : List Entry) (st : State)
    (hperm : table.Perm result_map)
    (hn : ∀ e ∈ result_map, ¬ begins_nocase right e.key) :
    result_loop right table st = st := by
  apply result_loop_none
  intro e he
  have he2 := hperm.mem_iff.mp he
  have hk := result_map_keys e he2
  rw [c_str_of_not_mem _ hk.1]
  cases hb : begins_with_nocase (c_str right) e.key with
  | false => rfl
  | true => exact absurd ((begins_with_nocase_c_str right e.key hk.1).mp hb) (hn e he2)

/-! ## The success branch on a first line `L - R` -/

/-- When the output has no marker and the first ` - ` of its first line is the
one after `L`, the worker body runs the loop over the table on what follows. -/
theorem process_first_line (env : Env) (table : List Entry) (path : Str) (st : State)
    (output L R : Str)
    (hrun : env (.sync_head path) = .loaded output)
    (hlen : output.length < size_modulus)
    (hline : output = L ++ " - ".toList ++ R ∨
      ∃ rest, output = L ++ " - ".toList ++ R ++ '\n' :: rest)
    (hL : '\n' ∉ L) (hR : '\n' ∉ R)
    (hfirst : ¬ " - ".toList <:+: L ++ " -".toList)
    (hfatal : ∀ e ∈ connection_errors, ¬ e <:+: output)
    (hclob : ¬ clobber_marker <:+: output)
    (hres : ¬ resolve_marker <:+: output)
    (herr : ¬ error_marker <:+: output) :
    process env table path st =
      (none, result_loop R table { st with invoked := st.invoked ++ [.sync_head path] }) := by
  have hnl : '\n' ∉ L ++ " - ".toList ++ R := by
    simp only [List.mem_append, not_or]
    exact ⟨⟨hL, by decide⟩, hR⟩
  obtain ⟨rest, hs⟩ := split_newline_first_line output _ hnl hline hlen
  have hlen2 : (L ++ " - ".toList ++ R).length < size_modulus := by
    rcases hline with h | ⟨r, h⟩
    · rw [← h]; exact hlen
    · rw [h] at hlen
      rw [List.length_append] at hlen
      omega
  have hs2 := split_first L " - ".toList R (by decide) hfirst hlen2
  rw [process_success env table path st output _ rest hrun
    (is_connection_error_eq_false output hfatal)
    ((find_isSome_eq_false_iff _ _).mpr hclob)
    ((find_isSome_eq_false_iff _ _).mpr hres)
    ((find_isSome_eq_false_iff _ _).mpr herr) hs, hs2]

/-! ## The fatal branch -/

/-- C2: when the output of the normal-mode sync of a target contains one of the
six transport-failure phrases, whatever else it contains, `is_connection_error`
returns true, `p4cmd` sets `critical` and throws `connection_error`, and the
worker body ends there: only the normal-mode command has been issued, and the
five counters, the needs-resolve list and the backlog are as before. -/
theorem connection_phrase_is_fatal (env : Env) (table : List Entry) (path : Str) (st : State)
    (output e : Str) (hrun : env (.sync_head path) = .loaded output)
    (he : e ∈ connection_errors) (hin : e <:+: output) :
    is_connection_error output = true ∧
    p4cmd env (.sync_head path) st =
      (.error .connection_error,
        { st with invoked := st.invoked ++ [.sync_head path], critical := true }) ∧
    process env table path st =
      (some .connection_error,
        { st with invoked := st.invoked ++ [.sync_head path], critical := true }) ∧
    (process env table path st).2.critical = true ∧
    (process env table path st).2.clobbered = st.clobbered ∧
    (process env table path st).2.updated = st.updated ∧
    (process env table path st).2.added = st.added ∧
    (process env table path st).2.deleted = st.deleted ∧
    (process env table path st).2.errors = st.errors ∧
    (process env table path st).2.needs_resolving = st.needs_resolving := by
  have hf : is_connection_error output = true :=
    (is_connection_error_iff output).mpr ⟨e, he, hin⟩
  have hp := process_fatal env table path st output hrun hf
  refine ⟨hf, p4cmd_loaded_fatal env _ st output hrun hf, hp, ?_⟩
  rw [hp]
  simp

/-- C2 at an output that has the phrase "TCP receive failed." after an update
line and before a clobber, a resolve and an error marker. -/
theorem connection_phrase_is_fatal_witness :
    process
        (fun _ => .loaded
          ("info: //d/a#2 - updating a\nTCP receive failed.\n".toList ++
            "error: Can't clobber writable file a must resolve #head".toList))
        result_map "//d/a".toList (State.init []) =
      (some .connection_error,
        { State.init [] with invoked := [] ++ [.sync_head "//d/a".toList], critical := true }) :=
  (connection_phrase_is_fatal
    (fun _ => .loaded
      ("info: //d/a#2 - updating a\nTCP receive failed.\n".toList ++
        "error: Can't clobber writable file a must resolve #head".toList))
    result_map "//d/a".toList (State.init []) _ "TCP receive failed.".toList rfl
    (by decide) (by decide)).2.2.1

/-! ## The clobber branch -/

theorem incr_eq_add_one (x : Int) (h : x ≠ INT_MAX) : incr x = x + 1 := by
  simp [incr, h]

/-- C4, as the code has it: the marker is the literal "Can't clobber writable
file", searched case-sensitively. When the normal-mode output of a target
contains it and no transport-failure phrase, the worker body applies `++` to
`clobbered` once (which adds one below `INT_MAX`) and issues, after the
normal-mode command, exactly one forced command for the same target; whatever
the forced command answers, the clobber phrase included, nothing more is issued,
and `errors`, `updated`, `added`, `deleted`, the needs-resolve list and the
backlog are as before. -/
theorem clobber_retried_once (env : Env) (table : List Entry) (path : Str) (st : State)
    (output : Str) (hrun : env (.sync_head path) = .loaded output)
    (hfatal : ∀ e ∈ connection_errors, ¬ e <:+: output)
    (hclob : clobber_marker <:+: output) :
    (process env table path st).2 =
      { st with clobbered := incr st.clobbered,
                invoked := st.invoked ++ [.sync_head path, .sync_force path],
                critical := (process env table path st).2.critical } ∧
    (st.clobbered ≠ INT_MAX → (process env table path st).2.clobbered = st.clobbered + 1) ∧
    (process env table path st).2.invoked = st.invoked ++ [.sync_head path, .sync_force path] ∧
    (process env table path st).2.errors = st.errors ∧
    (process env table path st).2.updated = st.updated ∧
    (process env table path st).2.added = st.added ∧
    (process env table path st).2.deleted = st.deleted ∧
    (process env table path st).2.needs_resolving = st.needs_resolving := by
  have hp := process_clobber env table path st output hrun
    (is_connection_error_eq_false output hfatal) ((find_isSome_iff _ _).mpr hclob)
  refine ⟨hp, ?_, ?_, ?_, ?_, ?_, ?_, ?_⟩
  · intro hmax
    rw [hp]
    exact incr_eq_add_one _ hmax
  all_goals rw [hp]

/-- C4 as amended, at a target whose forced retry reports the clobber phrase again. -/
theorem clobber_retried_once_witness :
    (process
        (fun _ => .loaded "error: Can't clobber writable file c:\\ws\\a".toList)
        result_map "//d/a".toList (State.init [])).2 =
      { State.init [] with
          clobbered := 1,
          invoked := [.sync_head "//d/a".toList, .sync_force "//d/a".toList] } :=
  ((clobber_retried_once
    (fun _ => .loaded "error: Can't clobber writable file c:\\ws\\a".toList)
    result_map "//d/a".toList (State.init []) _ rfl (by decide) (by decide)).1).trans
    (by decide)

/-- C4 as stated fails: an output that contains "can't clobber writable file"
with a small `c`, and no transport-failure phrase, takes no branch that counts:
`clobbered` stays at zero and no forced command is issued. -/
theorem lowercase_clobber_phrase_not_retried :
    "can't clobber writable file".toList <:+: "can't clobber writable file c:\\ws\\a".toList ∧
    (∀ e ∈ connection_errors, ¬ e <:+: "can't clobber writable file c:\\ws\\a".toList) ∧
    process (fun _ => .loaded "can't clobber writable file c:\\ws\\a".toList)
        result_map "//d/a".toList (State.init []) =
      (none, { State.init [] with invoked := [.sync_head "//d/a".toList] }) ∧
    (process (fun _ => .loaded "can't clobber writable file c:\\ws\\a".toList)
        result_map "//d/a".toList (State.init [])).2.clobbered = 0 := by
  decide

/-! ## The resolve branch -/

/-- C9: when the normal-mode output of a target contains "must resolve #head",
no transport-failure phrase and no clobber marker (the literal "Can't clobber
writable file"), whether or not it contains "error: ", the worker body returns
normally, appends the target once at the end of the needs-resolve list, issues
no forced command and changes no counter. -/
theorem resolve_collected_once (env : Env) (table : List Entry) (path : Str) (st : State)
    (output : Str) (hrun : env (.sync_head path) = .loaded output)
    (hfatal : ∀ e ∈ connection_errors, ¬ e <:+: output)
    (hclob : ¬ clobber_marker <:+: output)
    (hres : resolve_marker <:+: output) :
    process env table path st =
      (none, { st with invoked := st.invoked ++ [.sync_head path],
                       needs_resolving := st.needs_resolving ++ [path] }) ∧
    (process env table path st).2.needs_resolving = st.needs_resolving ++ [path] ∧
    (process env table path st).2.invoked = st.invoked ++ [.sync_head path] ∧
    (process env table path st).2.errors = st.errors ∧
    (process env table path st).2.clobbered = st.clobbered ∧
    (process env table path st).2.updated = st.updated ∧
    (process env table path st).2.added = st.added ∧
    (process env table path st).2.deleted = st.deleted := by
  have hp := process_resolve env table path st output hrun
    (is_connection_error_eq_false output hfatal)
    ((find_isSome_eq_false_iff _ _).mpr hclob) ((find_isSome_iff _ _).mpr hres)
  refine ⟨hp, ?_⟩
  rw [hp]
  simp

/-- C9 at an output that also has the marker "error: ", with one target
already on the needs-resolve list. -/
theorem resolve_collected_once_witness :
    (process (fun _ => .loaded "error: //d/a - must resolve #head before submitting".toList)
        result_map "//d/a".toList
        { State.init [] with needs_resolving := ["//d/z".toList] }).2.needs_resolving =
      ["//d/z".toList] ++ ["//d/a".toList] :=
  (resolve_collected_once
    (fun _ => .loaded "error: //d/a - must resolve #head before submitting".toList)
    result_map "//d/a".toList { State.init [] with needs_resolving := ["//d/z".toList] }
    _ rfl (by decide) (by decide) (by decide)).2.1

/-! ## The success branch -/

/-- C7, as the code has it: the verb is looked for after the first " - " of the
first line. When the output has no transport-failure phrase and no clobber,
resolve or error marker, and its first line is `L ++ " - updating foo/bar.txt#3"`
where the first " - " is the one after `L`, the worker body returns normally and
applies `++` to `updated` once (which adds one below `INT_MAX`); no other
counter, list or flag changes and no forced command is issued. -/
theorem updating_after_delimiter (env : Env) (table : List Entry) (path : Str) (st : State)
    (output L : Str)
    (hperm : table.Perm result_map)
    (hrun : env (.sync_head path) = .loaded output)
    (hlen : output.length < size_modulus)
    (hline : output = L ++ " - ".toList ++ "updating foo/bar.txt#3".toList ∨
      ∃ rest, output = L ++ " - ".toList ++ "updating foo/bar.txt#3".toList ++ '\n' :: rest)
    (hL : '\n' ∉ L)
    (hfirst : ¬ " - ".toList <:+: L ++ " -".toList)
    (hfatal : ∀ e ∈ connection_errors, ¬ e <:+: output)
    (hclob : ¬ clobber_marker <:+: output)
    (hres : ¬ resolve_marker <:+: output)
    (herr : ¬ error_marker <:+: output) :
    process env table path st =
      (none, { st with invoked := st.invoked ++ [.sync_head path],
                       updated := incr st.updated }) ∧
    (st.updated ≠ INT_MAX → (process env table path st).2.updated = st.updated + 1) := by
  have hp := process_first_line env table path st output L _ hrun hlen hline hL (by decide)
    hfirst hfatal hclob hres herr
  have hm := result_loop_perm_match "updating foo/bar.txt#3".toList table
    { st with invoked := st.invoked ++ [.sync_head path] }
    { key := "updating".toList, label := "updated".toList, color := 10, var := .updated }
    hperm (by decide) (by decide)
  rw [hm] at hp
  refine ⟨hp, ?_⟩
  intro hmax
  rw [hp]
  exact incr_eq_add_one _ hmax

/-- C7 as amended, at the line a sync prints for an updated file. -/
theorem updating_after_delimiter_witness :
    process (fun _ => .loaded "//d/foo/bar.txt#3 - updating foo/bar.txt#3".toList)
        result_map "//d/foo/bar.txt".toList (State.init []) =
      (none, { State.init [] with
                 invoked := [.sync_head "//d/foo/bar.txt".toList], updated := 1 }) :=
  ((updating_after_delimiter
    (fun _ => .loaded "//d/foo/bar.txt#3 - updating foo/bar.txt#3".toList)
    result_map "//d/foo/bar.txt".toList (State.init []) _ "//d/foo/bar.txt#3".toList
    (List.Perm.refl _) rfl (by decide) (Or.inl (by decide)) (by decide) (by decide)
    (by decide) (by decide) (by decide) (by decide)).1).trans (by decide)

/-- C7 as stated fails: when the first line of the output is the text
"updating foo/bar.txt#3" itself, with no marker anywhere, there is no " - " to
split on, `right` is the line without its first two characters, no key matches
and `updated` stays at zero, like every other counter. -/
theorem updating_as_whole_line_not_counted :
    (∀ e ∈ connection_errors, ¬ e <:+: "updating foo/bar.txt#3".toList) ∧
    ¬ clobber_marker <:+: "updating foo/bar.txt#3".toList ∧
    ¬ resolve_marker <:+: "updating foo/bar.txt#3".toList ∧
    ¬ error_marker <:+: "updating foo/bar.txt#3".toList ∧
    split "updating foo/bar.txt#3".toList " - ".toList =
      .ok ("updating foo/bar.txt#3".toList, "dating foo/bar.txt#3".toList) ∧
    process (fun _ => .loaded "updating foo/bar.txt#3".toList)
        result_map "foo/bar.txt".toList (State.init []) =
      (none, { State.init [] with invoked := [.sync_head "foo/bar.txt".toList] }) ∧
    (process (fun _ => .loaded "updating foo/bar.txt#3".toList)
        result_map "foo/bar.txt".toList (State.init [])).2.updated = 0 :=
  ⟨by decide, by decide, by decide, by decide, rfl, by decide, by decide⟩

/-- C8, as the code has it: the line is split at its first " - ", so `L` must
be such that the first " - " of `L ++ " - " ++ R` is the one after `L`, that
is, `L ++ " -"` contains no " - ". For an output of fewer than `2 ^ 64`
characters with no transport-failure phrase and no clobber, resolve or error
marker, whose first line is such an `L ++ " - " ++ R`, and for every order in
which the table is visited: if `R` begins, case-insensitively, with "updating",
"added as" or "deleted as", the worker body returns normally having applied
`++` once to `updated`, `added` or `deleted` respectively and changed no other
counter, list or flag; if `R` begins with none of the three, no counter changes. -/
theorem success_verb_counted (env : Env) (table : List Entry) (path : Str) (st : State)
    (output L R : Str)
    (hperm : table.Perm result_map)
    (hrun : env (.sync_head path) = .loaded output)
    (hlen : output.length < size_modulus)
    (hline : output = L ++ " - ".toList ++ R ∨
      ∃ rest, output = L ++ " - ".toList ++ R ++ '\n' :: rest)
    (hL : '\n' ∉ L) (hR : '\n' ∉ R)
    (hfirst : ¬ " - ".toList <:+: L ++ " -".toList)
    (hfatal : ∀ e ∈ connection_errors, ¬ e <:+: output)
    (hclob : ¬ clobber_marker <:+: output)
    (hres : ¬ resolve_marker <:+: output)
    (herr : ¬ error_marker <:+: output) :
    (begins_nocase R "updating".toList →
      process env table path st =
        (none, { st with invoked := st.invoked ++ [.sync_head path],
                         updated := incr st.updated })) ∧
    (begins_nocase R "added as".toList →
      process env table path st =
        (none, { st with invoked := st.invoked ++ [.sync_head path],
                         added := incr st.added })) ∧
    (begins_nocase R "deleted as".toList →
      process env table path st =
        (none, { st with invoked := st.invoked ++ [.sync_head path],
                         deleted := incr st.deleted })) ∧
    (¬ begins_nocase R "updating".toList → ¬ begins_nocase R "added as".toList →
      ¬ begins_nocase R "deleted as".toList →
      process env table path st =
        (none, { st with invoked := st.invoked ++ [.sync_head path] })) := by
  have hp := process_first_line env table path st output L R hrun hlen hline hL hR
    hfirst hfatal hclob hres herr
  refine ⟨?_, ?_, ?_, ?_⟩
  · intro hb
    rw [hp, result_loop_perm_match R table _
      { key := "updating".toList, label := "updated".toList, color := 10, var := .updated }
      hperm (by decide) hb]
    rfl
  · intro hb
    rw [hp, result_loop_perm_match R table _
      { key := "added as".toList, label := "added".toList, color := 11, var := .added }
      hperm (by decide) hb]
    rfl
  · intro hb
    rw [hp, result_loop_perm_match R table _
      { key := "deleted as".toList, label := "deleted".toList, color := 9, var := .deleted }
      hperm (by decide) hb]
    rfl
  · intro h1 h2 h3
    rw [hp, result_loop_perm_none R table _ hperm]
    intro e he
    simp only [result_map, List.mem_cons, List.mem_singleton, List.not_mem_nil, or_false] at he
    rcases he with rfl | rfl | rfl
    · exact h1
    · exact h2
    · exact h3

/-- C8 as amended, at a line whose verb is written in capitals, the table
being visited in the reverse of the written order. -/
theorem success_verb_counted_witness :
    process (fun _ => .loaded "info: //d/a#1 - ADDED AS c:\\ws\\a\r\ninfo: done".toList)
        result_map.reverse "//d/a".toList (State.init []) =
      (none, { State.init [] with
                 invoked := [.sync_head "//d/a".toList], added := incr 0 }) :=
  (success_verb_counted
    (fun _ => .loaded "info: //d/a#1 - ADDED AS c:\\ws\\a\r\ninfo: done".toList)
    result_map.reverse "//d/a".toList (State.init []) _ "info: //d/a#1".toList
    "ADDED AS c:\\ws\\a\r".toList
    (List.reverse_perm _) rfl (by decide) (Or.inr ⟨"info: done".toList, by decide⟩)
    (by decide) (by decide) (by decide) (by decide) (by decide) (by decide)
    (by decide)).2.1 (by decide)

/-- C8 as stated fails: with `L = "a -"`, which contains no " - ", and
`R = "updating x"`, the first " - " of the line `"a - - updating x"` starts
inside `L`, `right` is `"- updating x"`, and `updated` stays at zero. -/
theorem delimiter_overlapping_left_part_not_counted :
    "a - - updating x".toList = "a -".toList ++ " - ".toList ++ "updating x".toList ∧
    ¬ " - ".toList <:+: "a -".toList ∧
    begins_nocase "updating x".toList "updating".toList ∧
    (∀ e ∈ connection_errors, ¬ e <:+: "a - - updating x".toList) ∧
    ¬ clobber_marker <:+: "a - - updating x".toList ∧
    ¬ resolve_marker <:+: "a - - updating x".toList ∧
    ¬ error_marker <:+: "a - - updating x".toList ∧
    split "a - - updating x".toList " - ".toList = .ok ("a".toList, "- updating x".toList) ∧
    (process (fun _ => .loaded "a - - updating x".toList)
        result_map "//d/x".toList (State.init [])).2.updated = 0 :=
  ⟨by decide, by decide, by decide, by decide, by decide, by decide, by decide, rfl,
    by decide⟩

/-! ## Where the worker body throws -/

/-- C1 fails on the code: for the empty output (and for the output `"x"`) no
marker is found, the first line has no " - ", and `split` asks for
`substr(npos + 3)`, that is `substr(2)`, of a line shorter than two characters:
`std::out_of_range` is thrown, no outcome is recorded, and the exception leaves
the worker lambda, which has no handler. An output of two characters passes. -/
theorem short_first_line_raises (table : List Entry) (path : Str) (st : State) :
    split [] " - ".toList = .error .out_of_range ∧
    process (fun _ => .loaded []) table path st =
      (some .out_of_range, { st with invoked := st.invoked ++ [.sync_head path] }) ∧
    process (fun _ => .loaded "x".toList) table path st =
      (some .out_of_range, { st with invoked := st.invoked ++ [.sync_head path] }) ∧
    process (fun _ => .loaded "xy".toList) table path st =
      (none, result_loop [] table { st with invoked := st.invoked ++ [.sync_head path] }) ∧
    worker (fun _ => .loaded []) result_map 2 (State.init ["//d/a".toList]) =
      some (some .out_of_range,
        { State.init [] with work_index := 1, invoked := [.sync_head "//d/a".toList] }) := by
  refine ⟨rfl, ?_, ?_, ?_, by decide⟩
  · rw [process_success _ table path st [] [] [] rfl (by decide) (by decide) (by decide)
      (by decide) rfl]
    rfl
  · rw [process_success _ table path st "x".toList "x".toList "x".toList rfl (by decide)
      (by decide) (by decide) (by decide) rfl]
    rfl
  · rw [process_success _ table path st "xy".toList "xy".toList "xy".toList rfl (by decide)
      (by decide) (by decide) (by decide) rfl]
    rfl

/-- C3 fails on the code: when the output of a target has a transport-failure
phrase, `p4cmd` sets `critical` and throws `connection_error`; the worker
lambda has no handler, so the exception leaves it (the loop is not left
normally) and `errors` is not incremented. Here the backlog has two targets
and the tool answers "TCP receive failed." to everything. -/
theorem connection_error_escapes_worker :
    worker (fun _ => .loaded "TCP receive failed.".toList) result_map 3
        (State.init ["//d/a".toList, "//d/b".toList]) =
      some (some .connection_error,
        { State.init ["//d/a".toList] with
            work_index := 1, critical := true, invoked := [.sync_head "//d/b".toList] }) ∧
    ((worker (fun _ => .loaded "TCP receive failed.".toList) result_map 3
        (State.init ["//d/a".toList, "//d/b".toList])).map (fun r => r.2.errors)) = some 0 := by
  decide

/-! ## The backlog -/

theorem try_get_work_nil (task : Str) (st : State) (h : st.work = []) :
    try_get_work task st = (false, task, st) := by
  simp [try_get_work, h]

theorem try_get_work_concat (task : Str) (st : State) (w : List Str) (t : Str)
    (h : st.work = w ++ [t]) :
    try_get_work task st =
      (true, t, { st with work_index := incr st.work_index, work := w }) := by
  simp [try_get_work, h]

theorem take_work_all (n : Nat) (st : State) (h : st.work.length = n) :
    (take_work n st).1 = st.work.reverse.map (fun t => (true, t)) ∧
    (take_work n st).2.work = [] := by
  induction n generalizing st with
  | zero =>
    have hw : st.work = [] := List.length_eq_zero.mp h
    simp [take_work, hw]
  | succ n ih =>
    have hne : st.work ≠ [] := by
      intro h0
      rw [h0] at h
      cases h
    have hw : st.work = st.work.dropLast ++ [st.work.getLast hne] :=
      (List.dropLast_append_getLast hne).symm
    have ht := try_get_work_concat [] st _ _ hw
    have hl : st.work.dropLast.length = n := by
      rw [List.length_dropLast, h]
      rfl
    have := ih { st with work_index := incr st.work_index, work := st.work.dropLast } hl
    simp only [take_work, ht]
    refine ⟨?_, this.2⟩
    rw [this.1]
    conv_rhs => rw [hw]
    simp

/-- C6: `try_get_work` on an empty backlog returns false and leaves the
backlog and `task` as they are; on a non-empty backlog it returns true, stores
in `task` the last element of the vector and removes that one occurrence, the
other elements staying in place; and as many successive calls as the backlog
has elements all return true, return a permutation of the backlog (its
elements from the back), and leave a backlog on which `work_done` is true and
the next call returns false. -/
theorem try_get_work_dispatches_once (st : State) (task : Str) :
    (st.work = [] → try_get_work task st = (false, task, st)) ∧
    (∀ w t, st.work = w ++ [t] →
      try_get_work task st =
        (true, t, { st with work_index := incr st.work_index, work := w })) ∧
    (st.work ≠ [] →
      (try_get_work task st).1 = true ∧
      (try_get_work task st).2.1 ∈ st.work ∧
      st.work = (try_get_work task st).2.2.work ++ [(try_get_work task st).2.1] ∧
      st.work.Perm ((try_get_work task st).2.1 :: (try_get_work task st).2.2.work)) ∧
    ((take_work st.work.length st).1.map Prod.fst = List.replicate st.work.length true ∧
      (take_work st.work.length st).1.map Prod.snd = st.work.reverse ∧
      ((take_work st.work.length st).1.map Prod.snd).Perm st.work ∧
      work_done (take_work st.work.length st).2 = true ∧
      try_get_work task (take_work st.work.length st).2 =
        (false, task, (take_work st.work.length st).2)) := by
  refine ⟨try_get_work_nil task st, fun w t h => try_get_work_concat task st w t h, ?_, ?_⟩
  · intro hne
    have hw : st.work = st.work.dropLast ++ [st.work.getLast hne] :=
      (List.dropLast_append_getLast hne).symm
    rw [try_get_work_concat task st _ _ hw]
    refine ⟨rfl, List.getLast_mem hne, hw, ?_⟩
    simp only
    conv_lhs => rw [hw]
    exact List.perm_append_singleton _ _
  · obtain ⟨h1, h2⟩ := take_work_all st.work.length st rfl
    have hsnd : (take_work st.work.length st).1.map Prod.snd = st.work.reverse := by
      rw [h1, List.map_map]
      simp [Function.comp_def]
    refine ⟨?_, hsnd, ?_, ?_, try_get_work_nil task _ h2⟩
    · rw [h1, List.map_map]
      simp [Function.comp_def, List.eq_replicate_iff]
    · rw [hsnd]
      exact List.reverse_perm _
    · simp [work_done, h2]

/-- C6 on a backlog of three targets, one of them twice. -/
theorem try_get_work_dispatches_once_witness :
    try_get_work "old".toList (State.init ["a".toList, "b".toList, "a".toList]) =
      (true, "a".toList,
        { State.init ["a".toList, "b".toList] with work_index := incr 0 }) :=
  (try_get_work_dispatches_once (State.init ["a".toList, "b".toList, "a".toList])
    "old".toList).2.1 ["a".toList, "b".toList] "a".toList rfl

/-! ## The scan of the preview listing -/

theorem parse_tosync_step (fuel : Nat) (p : Str) (work : List Str) (c : Char)
    (tail left q : Str) (hp : p = c :: tail) (hc : c ≠ NUL)
    (hscan : scan_to_hash p = (left, '#' :: q)) :
    parse_tosync (fuel + 1) p work =
      parse_tosync fuel (skip_strspn (skip_strcspn q)) (work ++ [left]) := by
  have hhash : ¬ '#' = NUL := by decide
  subst hp
  rw [parse_tosync]
  simp only [hc, if_false, hscan, hhash]

theorem scan_to_hash_target (t x : Str) (h : ∀ c ∈ t, c ≠ '#' ∧ c ≠ NUL) :
    scan_to_hash (t ++ '#' :: x) = (t, '#' :: x) := by
  induction t with
  | nil => simp [scan_to_hash]
  | cons c t ih =>
    have hc := h c (List.mem_cons_self _ _)
    have ih2 := ih (fun d hd => h d (List.mem_cons_of_mem _ hd))
    simp [scan_to_hash, hc.1, hc.2, ih2]

theorem skip_strcspn_line (r x : Str) (d : Char) (hd : d = '\r' ∨ d = '\n')
    (h : ∀ c ∈ r, c ≠ '\r' ∧ c ≠ '\n' ∧ c ≠ NUL) :
    skip_strcspn (r ++ d :: x) = d :: x := by
  induction r with
  | nil =>
    rcases hd with rfl | rfl <;> simp [skip_strcspn]
  | cons c r ih =>
    have hc := h c (List.mem_cons_self _ _)
    have ih2 := ih (fun e he => h e (List.mem_cons_of_mem _ he))
    simp [skip_strcspn, hc.1, hc.2.1, hc.2.2, ih2]

theorem skip_strspn_clean (p : Str) (h : starts_clean p) : skip_strspn p = p := by
  cases p with
  | nil => rfl
  | cons c p =>
    have hc := h c (by simp)
    simp [skip_strspn, hc.1, hc.2.1, hc.2.2.1, hc.2.2.2]

theorem skip_strspn_newline (crlf : Bool) (p : Str) (h : starts_clean p) :
    skip_strspn ((if crlf then ['\r', '\n'] else ['\n']) ++ p) = p := by
  cases crlf
  · simp [skip_strspn, skip_strspn_clean p h]
  · simp [skip_strspn, skip_strspn_clean p h]

theorem listing_starts_clean (ls : List ListingLine) (h : ∀ l ∈ ls, l.well_formed) :
    starts_clean (listing ls) := by
  cases ls with
  | nil => intro c hc; simp [listing] at hc
  | cons l ls =>
    obtain ⟨hne, hall, hsp, htab, _⟩ := h l (List.mem_cons_self _ _)
    obtain ⟨c, t, ht⟩ := List.exists_cons_of_ne_nil hne
    have hc := hall c (by rw [ht]; exact List.mem_cons_self _ _)
    rw [ht] at hsp htab
    intro d hd
    simp only [listing, ListingLine.text, ht, List.cons_append, List.head?_cons,
      Option.mem_def, Option.some.injEq] at hd
    subst hd
    refine ⟨hc.2.2.1, hc.2.2.2, ?_, ?_⟩
    · intro h0; exact htab (by simp [h0])
    · intro h0; exact hsp (by simp [h0])

/-- One iteration of the scan on a well-formed line: the target is appended
and the scan goes on after the line. -/
theorem parse_tosync_line (fuel : Nat) (l : ListingLine) (p : Str) (work : List Str)
    (hl : l.well_formed) (hp : starts_clean p) :
    parse_tosync (fuel + 1) (l.text ++ p) work = parse_tosync fuel p (work ++ [l.target]) := by
  obtain ⟨hne, hall, _, _, hrev⟩ := hl
  obtain ⟨c, t, ht⟩ := List.exists_cons_of_ne_nil hne
  have hc := hall c (by rw [ht]; exact List.mem_cons_self _ _)
  have hscan : scan_to_hash (l.text ++ p) =
      (l.target, '#' :: (l.revision ++ ((if l.crlf then ['\r', '\n'] else ['\n']) ++ p))) := by
    have := scan_to_hash_target l.target
      (l.revision ++ ((if l.crlf then ['\r', '\n'] else ['\n']) ++ p))
      (fun d hd => ⟨(hall d hd).1, (hall d hd).2.1⟩)
    rw [← this]
    simp [ListingLine.text]
  have hcspn : skip_strcspn (l.revision ++ ((if l.crlf then ['\r', '\n'] else ['\n']) ++ p)) =
      (if l.crlf then ['\r', '\n'] else ['\n']) ++ p := by
    cases l.crlf
    · exact skip_strcspn_line l.revision p '\n' (Or.inr rfl) hrev
    · exact skip_strcspn_line l.revision ('\n' :: p) '\r' (Or.inl rfl) hrev
  have htext : l.text ++ p = c :: (t ++ '#' :: (l.revision ++
      ((if l.crlf then ['\r', '\n'] else ['\n']) ++ p))) := by
    simp [ListingLine.text, ht]
  rw [parse_tosync_step fuel _ work c _ _ _ htext hc.2.1 hscan, hcspn,
    skip_strspn_newline l.crlf p hp]

/-- C10: on the listing made of `n >= 0` well-formed lines (target, `#`, the
rest, and a `\n` or `\r\n`), the scan loop terminates: with any fuel above the
number of lines it returns without throwing, having appended to the backlog
exactly the targets of the lines, in the order of the lines. -/
theorem parse_tosync_listing (ls : List ListingLine) (work : List Str) (fuel : Nat)
    (hwf : ∀ l ∈ ls, l.well_formed) (hfuel : ls.length < fuel) :
    parse_tosync fuel (listing ls) work = some (none, work ++ ls.map (fun l => l.target)) := by
  induction ls generalizing fuel work with
  | nil =>
    obtain ⟨f, rfl⟩ : ∃ f, fuel = f + 1 := ⟨fuel - 1, by omega⟩
    simp [listing, parse_tosync]
  | cons l ls ih =>
    obtain ⟨f, rfl⟩ : ∃ f, fuel = f + 1 := ⟨fuel - 1, by omega⟩
    have hrest : ∀ x ∈ ls, x.well_formed := fun x hx => hwf x (List.mem_cons_of_mem _ hx)
    have hlen : ls.length < f := by
      simp only [List.length_cons] at hfuel
      omega
    rw [listing, parse_tosync_line f l (listing ls) work (hwf l (List.mem_cons_self _ _))
      (listing_starts_clean ls hrest), ih (work ++ [l.target]) f hrest hlen]
    simp

/-- C10 on a listing of two lines, one ending in `\r\n` and one in `\n`,
scanned into a backlog that already has one target. -/
theorem parse_tosync_listing_witness :
    parse_tosync 3
        (listing
          [ ⟨"//d/a.txt".toList, "3 - updating c:\\a.txt".toList, true⟩,
            ⟨"//d/b c.txt".toList, "1 - added as c:\\b c.txt".toList, false⟩ ])
        ["//d/z".toList] =
      some (none, ["//d/z".toList] ++ ["//d/a.txt".toList, "//d/b c.txt".toList]) :=
  parse_tosync_listing
    [ ⟨"//d/a.txt".toList, "3 - updating c:\\a.txt".toList, true⟩,
      ⟨"//d/b c.txt".toList, "1 - added as c:\\b c.txt".toList, false⟩ ]
    ["//d/z".toList] 3 (by decide) (by decide)

/-! ## Accounting over the worker loop -/

theorem counters_below_max (st : State) (hnn : counters_nonneg st)
    (hb : accounted st < INT_MAX) :
    st.updated ≠ INT_MAX ∧ st.added ≠ INT_MAX ∧ st.deleted ≠ INT_MAX ∧
    st.errors ≠ INT_MAX ∧ st.clobbered ≠ INT_MAX := by
  unfold counters_nonneg at hnn
  unfold accounted at hb
  refine ⟨?_, ?_, ?_, ?_, ?_⟩ <;> omega

/-- When the clobber branch returns, `critical` is as before. -/
theorem process_clobber_none (env : Env) (table : List Entry) (path : Str) (st : State)
    (output : Str) (h : env (.sync_head path) = .loaded output)
    (hn : is_connection_error output = false)
    (hc : (find output clobber_marker).isSome = true)
    (hnone : (process env table path st).1 = none) :
    (process env table path st).2 =
      { st with clobbered := incr st.clobbered,
                invoked := st.invoked ++ [.sync_head path, .sync_force path] } := by
  have hp := process_clobber env table path st output h hn hc
  have hcrit : (process env table path st).2.critical = st.critical := by
    obtain ⟨⟨fl, rest⟩, hs⟩ := split_newline_ok output
    revert hnone
    unfold process
    rw [p4cmd_loaded_ok env _ st output h hn]
    simp only [newline_toList, hs, hc, if_true]
    split
    · next e st3 heq => intro hnone; simp at hnone
    · next o st3 heq =>
      intro _
      have h1 := p4cmd_ok_critical env (.sync_force path) _ o (by rw [heq])
      rw [heq] at h1
      exact h1
  rw [hp, hcrit]

theorem bump_accounted (v : Counter) (st : State) (hnn : counters_nonneg st)
    (hb : accounted st < INT_MAX) :
    counters_nonneg (bump v st) ∧ (bump v st).work = st.work ∧
    (bump v st).critical = st.critical ∧ accounted (bump v st) = accounted st + 1 := by
  obtain ⟨h1, h2, h3, _, _⟩ := counters_below_max st hnn hb
  unfold counters_nonneg at hnn ⊢
  unfold accounted
  cases v
  · simp only [bump, incr_eq_add_one _ h1]
    refine ⟨⟨?_, ?_, ?_, ?_, ?_⟩, ?_, ?_, ?_⟩ <;> first | trivial | omega
  · simp only [bump, incr_eq_add_one _ h2]
    refine ⟨⟨?_, ?_, ?_, ?_, ?_⟩, ?_, ?_, ?_⟩ <;> first | trivial | omega
  · simp only [bump, incr_eq_add_one _ h3]
    refine ⟨⟨?_, ?_, ?_, ?_, ?_⟩, ?_, ?_, ?_⟩ <;> first | trivial | omega

/-- The loop over the table either increments one counter, when some key of
`result_map` matches, or changes nothing, when none does. -/
theorem result_loop_cases (right : Str) (table : List Entry) (st : State)
    (hperm : table.Perm result_map) :
    (result_map.all (fun i => !begins_with_nocase (c_str right) (c_str i.key)) = true ∧
      result_loop right table st = st) ∨
    (result_map.all (fun i => !begins_with_nocase (c_str right) (c_str i.key)) = false ∧
      ∃ v, result_loop right table st = bump v st) := by
  by_cases hall : result_map.all (fun i => !begins_with_nocase (c_str right) (c_str i.key)) = true
  · left
    refine ⟨hall, result_loop_none right table st ?_⟩
    intro e he
    have := List.all_eq_true.mp hall e (hperm.mem_iff.mp he)
    simpa using this
  · right
    have hall2 : result_map.all
        (fun i => !begins_with_nocase (c_str right) (c_str i.key)) = false := by
      simpa using hall
    refine ⟨hall2, ?_⟩
    obtain ⟨e, he, hm⟩ := List.all_eq_false.mp hall2
    have hm2 : begins_with_nocase (c_str right) (c_str e.key) = true := by simpa using hm
    refine ⟨e.var, result_loop_match right table st e (hperm.mem_iff.mpr he) hm2 ?_⟩
    intro x hx hxm
    exact result_map_match_unique right x e (hperm.mem_iff.mp hx) he hxm hm2

/-! ### The claims' vocabulary against the code -/

theorem first_line_cases (output : Str) :
    output = first_line_of output ∨ ∃ rest, output = first_line_of output ++ '\n' :: rest := by
  induction output with
  | nil => exact Or.inl rfl
  | cons c s ih =>
    by_cases hc : c = '\n'
    · right
      exact ⟨s, by simp [first_line_of, hc]⟩
    · have hfl : first_line_of (c :: s) = c :: first_line_of s := by
        simp [first_line_of, hc]
      rw [hfl]
      rcases ih with h | ⟨rest, h⟩
      · left
        rw [← h]
      · right
        exact ⟨rest, by rw [List.cons_append, ← h]⟩

theorem first_line_no_newline (output : Str) : '\n' ∉ first_line_of output := by
  intro h
  have := List.mem_takeWhile_imp h
  simp at this

theorem not_infix_dropLast (delim : Str) (hd : delim ≠ []) : ¬ delim <:+: delim.dropLast := by
  intro h
  have h1 := h.length_le
  have h2 := List.length_pos_of_ne_nil hd
  rw [List.length_dropLast] at h1
  omega

/-- When `delim` occurs in `s`, `s` is `L ++ delim ++ R` where the first
occurrence is the one after `L` and `R` is what `after_first` gives. -/
theorem after_first_spec (delim s : Str) (hd : delim ≠ []) (h : delim <:+: s) :
    ∃ L R, s = L ++ delim ++ R ∧ ¬ delim <:+: L ++ delim.dropLast ∧
      after_first delim s = some R := by
  induction s with
  | nil =>
    exact absurd (List.infix_nil.mp h) hd
  | cons c s ih =>
    by_cases hpre : delim.isPrefixOf (c :: s) = true
    · obtain ⟨R, hR⟩ := List.isPrefixOf_iff_prefix.mp hpre
      refine ⟨[], R, by simpa using hR.symm, ?_, ?_⟩
      · intro hin
        exact not_infix_dropLast delim hd (by simpa using hin)
      · rw [after_first, if_pos hpre, ← hR, List.drop_left]
    · have hs : delim <:+: s := by
        rcases List.infix_cons_iff.mp h with hp | hs
        · exact absurd (List.isPrefixOf_iff_prefix.mpr hp) hpre
        · exact hs
      obtain ⟨L, R, hLR, hfirst, haf⟩ := ih hs
      refine ⟨c :: L, R, by rw [hLR]; simp, ?_, ?_⟩
      · intro hin
        rw [List.cons_append] at hin
        rcases List.infix_cons_iff.mp hin with hp | hin2
        · apply hpre
          apply List.isPrefixOf_iff_prefix.mpr
          have hext : c :: (L ++ delim.dropLast) <+: c :: s := by
            refine ⟨[delim.getLast hd] ++ R, ?_⟩
            rw [hLR]
            conv_rhs => rw [← List.dropLast_append_getLast hd]
            simp
          exact hp.trans hext
        · exact hfirst hin2
      · rw [after_first, if_neg hpre, haf]

theorem result_map_keys_eq : result_map.map (fun e => e.key) = success_verbs := by decide

/-- The loop over the table finds no key exactly when the text begins with
none of the three success verbs. -/
theorem no_key_iff_no_verb (right : Str) :
    result_map.all (fun i => !begins_with_nocase (c_str right) (c_str i.key)) = true ↔
      ∀ v ∈ success_verbs, ¬ begins_nocase right v := by
  rw [List.all_eq_true, ← result_map_keys_eq]
  constructor
  · intro h v hv
    obtain ⟨e, he, rfl⟩ := List.mem_map.mp hv
    have hk := result_map_keys e he
    have hb := h e he
    rw [c_str_of_not_mem _ hk.1] at hb
    intro hbn
    rw [(begins_with_nocase_c_str right e.key hk.1).mpr hbn] at hb
    simp at hb
  · intro h e he
    have hk := result_map_keys e he
    rw [c_str_of_not_mem _ hk.1]
    cases hb : begins_with_nocase (c_str right) e.key with
    | false => rfl
    | true =>
      exact absurd ((begins_with_nocase_c_str right e.key hk.1).mp hb)
        (h e.key (List.mem_map.mpr ⟨e, he, rfl⟩))

theorem marker_free_of_finds (output : Str) (hf : is_connection_error output = false)
    (hc : (find output clobber_marker).isSome = false)
    (hr : (find output resolve_marker).isSome = false)
    (he : (find output error_marker).isSome = false) : marker_free output := by
  refine ⟨?_, (find_isSome_eq_false_iff _ _).mp hc, (find_isSome_eq_false_iff _ _).mp hr,
    (find_isSome_eq_false_iff _ _).mp he⟩
  intro e hmem hin
  have := (is_connection_error_iff output).mpr ⟨e, hmem, hin⟩
  rw [hf] at this
  cases this

theorem unclassified_success_of_marker (output : Str) (h : ¬ marker_free output) :
    unclassified_success output = false := by
  simp [unclassified_success, h]

/-- One target handled without an exception, its output being one the worker
body works on as designed: the backlog and `critical` are untouched, and the
total grows by one unless the output was an unclassified success. -/
theorem process_none_step (env : Env) (table : List Entry) (path : Str) (st : State)
    (hperm : table.Perm result_map)
    (hok : ∀ o ∈ output_of env path, delimited o)
    (hnone : (process env table path st).1 = none)
    (hnn : counters_nonneg st) (hb : accounted st < INT_MAX) :
    counters_nonneg (process env table path st).2 ∧
    (process env table path st).2.work = st.work ∧
    (process env table path st).2.critical = st.critical ∧
    accounted (process env table path st).2 =
      accounted st + (if unclassified_target env path = true then 0 else 1) := by
  obtain ⟨_, _, _, h4, h5⟩ := counters_below_max st hnn hb
  cases hE : env (.sync_head path) with
  | system_failed =>
    have : (process env table path st).1 = some .invalid_system_command := by
      simp [process, p4cmd, hE]
    rw [this] at hnone
    cases hnone
  | load_failed =>
    have : (process env table path st).1 = some .failed_to_load_file := by
      simp [process, p4cmd, hE]
    rw [this] at hnone
    cases hnone
  | loaded output =>
    have hout : output_of env path = some output := by simp [output_of, hE]
    have hUt : unclassified_target env path = unclassified_success output := by
      simp [unclassified_target, hout]
    obtain ⟨hlen, hdelim⟩ := hok output (by rw [hout]; rfl)
    cases hf : is_connection_error output with
    | true =>
      rw [process_fatal env table path st output hE hf] at hnone
      cases hnone
    | false =>
      cases hc : (find output clobber_marker).isSome with
      | true =>
        have hU : unclassified_target env path = false := by
          rw [hUt]
          apply unclassified_success_of_marker
          intro hm
          exact hm.2.1 ((find_isSome_iff _ _).mp hc)
        rw [process_clobber_none env table path st output hE hf hc hnone, hU]
        unfold counters_nonneg at hnn ⊢
        unfold accounted
        simp only [incr_eq_add_one _ h5, Bool.false_eq_true, if_false]
        refine ⟨⟨?_, ?_, ?_, ?_, ?_⟩, ?_, ?_, ?_⟩ <;> first | trivial | omega
      | false =>
        cases hr : (find output resolve_marker).isSome with
        | true =>
          have hU : unclassified_target env path = false := by
            rw [hUt]
            apply unclassified_success_of_marker
            intro hm
            exact hm.2.2.1 ((find_isSome_iff _ _).mp hr)
          rw [process_resolve env table path st output hE hf hc hr, hU]
          unfold counters_nonneg at hnn ⊢
          unfold accounted
          refine ⟨hnn, rfl, rfl, ?_⟩
          simp only [List.length_append, List.length_singleton, Bool.false_eq_true, if_false]
          push_cast
          omega
        | false =>
          cases he : (find output error_marker).isSome with
          | true =>
            have hU : unclassified_target env path = false := by
              rw [hUt]
              apply unclassified_success_of_marker
              intro hm
              exact hm.2.2.2 ((find_isSome_iff _ _).mp he)
            rw [process_error env table path st output hE hf hc hr he, hU]
            unfold counters_nonneg at hnn ⊢
            unfold accounted
            simp only [incr_eq_add_one _ h4, Bool.false_eq_true, if_false]
            refine ⟨⟨?_, ?_, ?_, ?_, ?_⟩, ?_, ?_, ?_⟩ <;> first | trivial | omega
          | false =>
            have hmf := marker_free_of_finds output hf hc hr he
            obtain ⟨L, R, hLR, hfirst, haf⟩ :=
              after_first_spec " - ".toList (first_line_of output) (by decide) (hdelim hmf)
            have hnl := first_line_no_newline output
            rw [hLR] at hnl
            simp only [List.mem_append, not_or] at hnl
            have hline : output = L ++ " - ".toList ++ R ∨
                ∃ rest, output = L ++ " - ".toList ++ R ++ '\n' :: rest := by
              rw [← hLR]
              exact first_line_cases output
            have hp := process_first_line env table path st output L R hE hlen hline
              hnl.1.1 hnl.2 hfirst hmf.1 hmf.2.1 hmf.2.2.1 hmf.2.2.2
            have hU : unclassified_target env path =
                decide (∀ v ∈ success_verbs, ¬ begins_nocase R v) := by
              rw [hUt]
              simp only [unclassified_success, haf, hmf, decide_True, Bool.true_and]
            have hnn1 : counters_nonneg
                { st with invoked := st.invoked ++ [Cmd.sync_head path] } := hnn
            have hb1 : accounted
                { st with invoked := st.invoked ++ [Cmd.sync_head path] } < INT_MAX := hb
            rw [hp, hU]
            rcases result_loop_cases R table
              { st with invoked := st.invoked ++ [Cmd.sync_head path] } hperm with
              ⟨hall, hloop⟩ | ⟨hall, v, hloop⟩
            · have hv := (no_key_iff_no_verb R).mp hall
              rw [hloop, decide_eq_true hv]
              exact ⟨hnn, rfl, rfl, by simp [accounted]⟩
            · have hv : ¬ ∀ v ∈ success_verbs, ¬ begins_nocase R v := by
                intro hv
                rw [(no_key_iff_no_verb R).mpr hv] at hall
                cases hall
              rw [hloop, decide_eq_false hv]
              simpa using bump_accounted v _ hnn1 hb1

theorem worker_succ (env : Env) (table : List Entry) (fuel : Nat) (st : State) :
    worker env table (fuel + 1) st =
      if (!work_done st && !st.critical) = true then
        match try_get_work [] st with
        | (true, path, st1) =>
          match process env table path st1 with
          | (some e, st2) => some (some e, st2)
          | (none, st2) => worker env table fuel st2
        | (false, _, st1) => worker env table fuel st1
      else some (none, st) := by
  rw [worker]

/-- With more fuel than targets, the worker started with `critical` unset
ends; when it ends without an exception, the outputs being ones the worker
body works on as designed, the backlog is empty and every target taken is
either in the total or an unclassified success. -/
theorem worker_accounting (env : Env) (table : List Entry) (hperm : table.Perm result_map)
    (fuel : Nat) :
    ∀ st : State, st.critical = false → counters_nonneg st →
      accounted st + st.work.length ≤ INT_MAX → st.work.length < fuel →
      (∀ t ∈ st.work, ∀ o ∈ output_of env t, delimited o) →
      ∃ r, worker env table fuel st = some r ∧
        (r.1 = none →
          r.2.work = [] ∧
          accounted r.2 + (st.work.countP (unclassified_target env) : Nat) =
            accounted st + st.work.length) := by
  induction fuel with
  | zero =>
    intro st _ _ _ h _
    omega
  | succ fuel ih =>
    intro st hcrit hnn hb hfuel hok
    by_cases hw : st.work = []
    · refine ⟨(none, st), ?_, ?_⟩
      · rw [worker_succ]
        simp [work_done, hw]
      · intro _
        simp [hw]
    · have hwd : st.work = st.work.dropLast ++ [st.work.getLast hw] :=
        (List.dropLast_append_getLast hw).symm
      have htry := try_get_work_concat [] st _ _ hwd
      have hcond : (!work_done st && !st.critical) = true := by
        simp [work_done, hw, hcrit]
      have hlen : st.work.length = st.work.dropLast.length + 1 := by
        conv_lhs => rw [hwd]
        simp
      rw [worker_succ, if_pos hcond, htry]
      simp only
      split
      · next e st2 heq =>
        refine ⟨(some e, st2), rfl, ?_⟩
        intro h
        cases h
      · next st2 heq =>
        have hnone := congrArg Prod.fst heq
        have hstep := process_none_step env table _ _ hperm
          (hok _ (List.getLast_mem hw)) hnone
        have hb1 : accounted st < INT_MAX := by
          rw [hlen] at hb
          push_cast at hb
          omega
        obtain ⟨s1, s2, s3, s4⟩ := hstep hnn hb1
        rw [heq] at s1 s2 s3 s4
        have s2 : st2.work = st.work.dropLast := s2
        have s3 : st2.critical = st.critical := s3
        have s4 : accounted st2 = accounted st +
            (if unclassified_target env (st.work.getLast hw) = true then 0 else 1) := s4
        have hb2 : accounted st2 + st2.work.length ≤ INT_MAX := by
          rw [s4, s2]
          rw [hlen] at hb
          push_cast at hb
          split <;> omega
        have hfuel2 : st2.work.length < fuel := by
          rw [s2]
          omega
        have hok2 : ∀ t ∈ st2.work, ∀ o ∈ output_of env t, delimited o := by
          intro t ht
          rw [s2] at ht
          exact hok t (List.mem_of_mem_dropLast ht)
        obtain ⟨r, hr, hacc⟩ := ih st2 (by rw [s3, hcrit]) s1 hb2 hfuel2 hok2
        refine ⟨r, hr, ?_⟩
        intro hn
        obtain ⟨h1, h2⟩ := hacc hn
        refine ⟨h1, ?_⟩
        rw [s2, s4] at h2
        have hcount : (st.work.countP (unclassified_target env) : Nat) =
            st.work.dropLast.countP (unclassified_target env) +
              (if unclassified_target env (st.work.getLast hw) = true then 1 else 0) := by
          conv_lhs => rw [hwd]
          rw [List.countP_append]
          simp [List.countP_cons]
        rw [hcount, hlen]
        by_cases hu : unclassified_target env (st.work.getLast hw) = true
        · rw [if_pos hu] at h2 ⊢
          push_cast at h2 ⊢
          omega
        · rw [if_neg hu] at h2 ⊢
          push_cast at h2 ⊢
          omega

/-- C5, as the code has it: an output that reaches the loop over `result_map`
and matches no key increments nothing, so such targets are missing from the
total. For every backlog of `K < 2 ^ 31` targets, every order of the table and
every tool whose outputs for the targets have fewer than `2 ^ 64` characters
and, when they have no marker, a " - " in their first line: the worker run
with more fuel than `K` ends; when it ends without an exception (which needs
every output consulted to be free of transport-failure phrases), the backlog
is empty and updated + added + deleted + errors + clobbered + the number of
needs-resolve entries + the number of targets whose output is an unclassified
success (no marker, and none of the three verbs at the start of what follows
the first " - " of the first line) is `K`. -/
theorem drained_backlog_accounted (env : Env) (table : List Entry) (backlog : List Str)
    (fuel : Nat) (hperm : table.Perm result_map) (hK : backlog.length < 2147483648)
    (hfuel : backlog.length < fuel)
    (hok : ∀ t ∈ backlog, ∀ o ∈ output_of env t, delimited o) :
    ∃ r, worker env table fuel (State.init backlog) = some r ∧
      (r.1 = none →
        r.2.work = [] ∧
        r.2.updated + r.2.added + r.2.deleted + r.2.errors + r.2.clobbered +
            r.2.needs_resolving.length +
            (backlog.countP (unclassified_target env) : Nat) = backlog.length) := by
  have hb : accounted (State.init backlog) + (State.init backlog).work.length ≤ INT_MAX := by
    simp only [accounted, State.init, INT_MAX, List.length_nil]
    push_cast
    omega
  obtain ⟨r, hr, h⟩ := worker_accounting env table hperm fuel (State.init backlog) rfl
    (by simp [counters_nonneg, State.init]) hb hfuel hok
  refine ⟨r, hr, fun hn => ⟨(h hn).1, ?_⟩⟩
  have h2 := (h hn).2
  simp only [accounted, State.init, List.length_nil] at h2
  simpa using h2

/-- C5 as amended, on a backlog of four targets: one updated, one in error,
two with an unclassified success; the run ends without an exception with
`updated = 1` and `errors = 1`, and two of the four targets are unclassified. -/
theorem drained_backlog_accounted_witness :
    ((worker sample_env result_map 5
        (State.init ["//d/x".toList, "//d/u".toList, "//d/e".toList, "//d/y".toList])).map
      (fun r => (r.1, r.2.updated, r.2.errors))) = some (none, 1, 1) ∧
    ["//d/x".toList, "//d/u".toList, "//d/e".toList, "//d/y".toList].countP
      (unclassified_target sample_env) = 2 ∧
    ∃ r, worker sample_env result_map 5
        (State.init ["//d/x".toList, "//d/u".toList, "//d/e".toList, "//d/y".toList]) =
          some r ∧
      (r.1 = none →
        r.2.work = [] ∧
        r.2.updated + r.2.added + r.2.deleted + r.2.errors + r.2.clobbered +
            r.2.needs_resolving.length +
            ((["//d/x".toList, "//d/u".toList, "//d/e".toList, "//d/y".toList].countP
              (unclassified_target sample_env) : Nat) : Int) =
          (["//d/x".toList, "//d/u".toList, "//d/e".toList, "//d/y".toList].length : Nat)) :=
  ⟨by decide, by decide,
    drained_backlog_accounted sample_env result_map
      ["//d/x".toList, "//d/u".toList, "//d/e".toList, "//d/y".toList] 5
      (List.Perm.refl _) (by decide) (by decide) (by decide)⟩

/-- C5 as stated fails: on a backlog of one target whose output, free of
transport-failure phrases, has no verb of `result_map`, the worker drains the
backlog without an exception and the total is 0, not 1. -/
theorem unclassified_success_not_counted :
    (∀ e ∈ connection_errors,
      ¬ e <:+: "info: //d/x#1 - is opened and not being changed".toList) ∧
    ((worker (fun _ => .loaded "info: //d/x#1 - is opened and not being changed".toList)
        result_map 2 (State.init ["//d/x".toList])).map
      (fun r => (r.1, r.2.work, accounted r.2))) = some (none, [], 0) := by
  decide

end P4Sync
